import Mathlib

/-!
# Verification of the `useOptimizedData` data-access layer

A shallow embedding of `src/src/hooks/useOptimizedData.ts`: the cache-key
fingerprint, the fetch orchestrator (`fetchData`), the live-listener registry,
the optimistic-update helper, the expiry sweeper and the unmount cleanup,
together with theorems settling the specification's claims about them.

JavaScript values that can appear as filter values (`Record<string, any>`)
are modelled by the inductive `JsonVal` (strings, integral numbers, booleans
and `null`); the JS value `undefined` is modelled as `Option.none` in a filter
entry.  Times (`Date.now()` results and durations) are modelled as `Int`, so
that JS subtraction of timestamps is embedded exactly.
-/

namespace CheckMaker

/-- A primitive JSON/JS value as used in filter mappings and document fields.
Numbers are modelled as integers (the filters in this repository are ids,
booleans and strings; `JSON.stringify` prints an integral JS number in plain
decimal). -/
inductive JsonVal : Type
  | str (s : String)
  | num (n : Int)
  | bool (b : Bool)
  | null
deriving DecidableEq, Repr

/-- A filter mapping `Record<string, any>`: an insertion-ordered association
list.  A value of `Option.none` models the JS value `undefined`. -/
abbrev Filters : Type := List (String × Option JsonVal)

/-- Decimal digit character, `48 + d` being the code point of `'0' + d`. -/
def digitChar (d : Nat) : Char := Char.ofNat (48 + d)

/-- Fuel-indexed most-significant-first decimal rendering of a natural
number; `fuel ≥ n` makes it total on `n`.  Models how `JSON.stringify`
prints a non-negative integral JS number. -/
def natDecimalAux : Nat → Nat → List Char
  | _, 0 => []
  | 0, _ + 1 => []
  | fuel + 1, n + 1 => natDecimalAux fuel ((n + 1) / 10) ++ [digitChar ((n + 1) % 10)]

/-- Decimal rendering of a natural number, as printed by `JSON.stringify`. -/
def natDecimal (n : Nat) : List Char :=
  if n = 0 then ['0'] else natDecimalAux n n

/-- Decimal rendering of an integer, as printed by `JSON.stringify`
(a leading `'-'` for negative numbers). -/
def intDecimal : Int → List Char
  | Int.ofNat n => natDecimal n
  | Int.negSucc m => '-' :: natDecimal (m + 1)

/-- JSON escaping of one character inside a string literal (`'"'` and `'\'`
get a backslash; other characters are passed through — control characters do
not occur in this repository's collection names or filter values). -/
def jsonEscapeChar (c : Char) : List Char :=
  if c = '"' then ['\\', '"'] else if c = '\\' then ['\\', '\\'] else [c]

/-- JSON escaping of a whole string (without the surrounding quotes). -/
def jsonEscape (s : String) : List Char :=
  (s.data.map jsonEscapeChar).flatten

/-- `JSON.stringify` of one primitive value. -/
def stringifyVal : JsonVal → List Char
  | .str s => '"' :: (jsonEscape s ++ ['"'])
  | .num n => intDecimal n
  | .bool true => ['t', 'r', 'u', 'e']
  | .bool false => ['f', 'a', 'l', 's', 'e']
  | .null => ['n', 'u', 'l', 'l']

/-- The entries of a filter mapping that survive `JSON.stringify`: entries
whose value is `undefined` are dropped (JS `JSON.stringify` omits them). -/
def definedEntries (fs : Filters) : List (String × JsonVal) :=
  fs.filterMap (fun e => e.2.map (fun v => (e.1, v)))

/-- `JSON.stringify` of one `"key":value` member. -/
def stringifyEntry (e : String × JsonVal) : List Char :=
  '"' :: (jsonEscape e.1 ++ '"' :: ':' :: stringifyVal e.2)

/-- `JSON.stringify` of the comma-separated member list of an object. -/
def stringifyEntries : List (String × JsonVal) → List Char
  | [] => []
  | [e] => stringifyEntry e
  | e :: e' :: rest => stringifyEntry e ++ ',' :: stringifyEntries (e' :: rest)

/-- `JSON.stringify(filters)` for a flat filter object. -/
def stringifyFilters (fs : Filters) : String :=
  ⟨'{' :: (stringifyEntries (definedEntries fs) ++ ['}'])⟩

/-- The cache fingerprint of `useOptimizedData`:
`` `${collectionName}:${JSON.stringify(filters)}` `` (line 40–42 of the
source). -/
def cacheKey (collectionName : String) (filters : Filters) : String :=
  collectionName ++ ":" ++ stringifyFilters filters

/-- The listener-registry key:
`` `${collectionName}:${JSON.stringify(filters)}:${backgroundUpdate}` ``
(line 45–47 of the source; JS renders the boolean as `true`/`false`). -/
def listenerKey (collectionName : String) (filters : Filters)
    (backgroundUpdate : Bool) : String :=
  collectionName ++ ":" ++ stringifyFilters filters ++ ":" ++
    (if backgroundUpdate then "true" else "false")

/-! ## Alphabet restrictions and auxiliary encodings for the key analysis -/

/-- A character needing no JSON escaping (neither `'"'` nor `'\'`). -/
def plainChar (c : Char) : Bool := c != '"' && c != '\\'

/-- A string of plain characters, escaped to itself by `JSON.stringify`. -/
def plainStr (s : String) : Bool := s.data.all plainChar

/-- A primitive value whose rendering needs no escaping. -/
def plainValB : JsonVal → Bool
  | .str s => plainStr s
  | _ => true

/-- All keys and string values of an entry list are plain. -/
def plainEntriesB (l : List (String × JsonVal)) : Bool :=
  l.all (fun e => plainStr e.1 && plainValB e.2)

/-- Decimal decoding, the left inverse of `natDecimal`. -/
def decodeNat (l : List Char) : Nat :=
  l.foldl (fun a c => 10 * a + (c.toNat - 48)) 0

/-- A decimal digit character. -/
def isDigitCh (c : Char) : Prop := 48 ≤ c.toNat ∧ c.toNat ≤ 57

instance : DecidablePred isDigitCh := fun c => by
  unfold isDigitCh
  infer_instance

/-- Coarse classification of a character, matching `classIdx` below on the
first character of a rendered value. -/
def charClass (c : Char) : Nat :=
  if c = '"' then 0
  else if isDigitCh c then 1
  else if c = '-' then 2
  else if c = 't' then 3
  else if c = 'f' then 4
  else 5

/-- Which of the six disjoint first-character classes a value's rendering
falls into. -/
def classIdx : JsonVal → Nat
  | .str _ => 0
  | .num (.ofNat _) => 1
  | .num (.negSucc _) => 2
  | .bool true => 3
  | .bool false => 4
  | .null => 5

/-- What may legally follow a rendered value or object member inside a
`JSON.stringify` object body: nothing, or a comma starting the next member. -/
def sepStart (r : List Char) : Prop := r = [] ∨ ∃ t, r = ',' :: t

/-- The separator-plus-rest of an object body after its first member. -/
def entrySep : List (String × JsonVal) → List Char
  | [] => []
  | t :: ts => ',' :: stringifyEntries (t :: ts)

/-! ## Documents, the cache and the hook state -/

/-- A document as produced by `snapshot.docs.map(doc => ({id: doc.id, ...doc.data()}))`:
an open-ended field mapping; the `"id"` field holds the document id. -/
abbrev Doc : Type := List (String × JsonVal)

/-- First-match field lookup in a field mapping (JS property access on an
object without duplicate keys). -/
def lookupField (fs : List (String × JsonVal)) (k : String) : Option JsonVal :=
  (fs.find? (fun e => e.1 == k)).map (fun e => e.2)

/-- The JS object spread `{...base, ...upd}`: `base`'s keys keep their
position but take `upd`'s value when `upd` has the key; keys only in `upd`
are appended in `upd`'s order. -/
def spreadMerge (base upd : List (String × JsonVal)) : List (String × JsonVal) :=
  base.map (fun e =>
    match lookupField upd e.1 with
    | some v => (e.1, v)
    | none => e) ++
  upd.filter (fun e => (lookupField base e.1).isNone)

/-- A cache entry (`CacheItem<T>` in the source): payload, `Date.now()`
timestamp of the fetch, and the version counter at the fetch. -/
structure CacheItem where
  data : List Doc
  timestamp : Int
  version : Nat
deriving DecidableEq

/-- Lookup in a JS `Map` modelled as an insertion-ordered association list. -/
def mapGet {α : Type} (m : List (String × α)) (k : String) : Option α :=
  (m.find? (fun e => e.1 == k)).map (fun e => e.2)

/-- `Map.prototype.set`: replace in place when the key exists, append
otherwise. -/
def mapSet {α : Type} (m : List (String × α)) (k : String) (v : α) :
    List (String × α) :=
  if (m.find? (fun e => e.1 == k)).isSome then
    m.map (fun e => if e.1 == k then (k, v) else e)
  else
    m ++ [(k, v)]

/-- The hook's reactive state: `data`, `loading`, `error`, `cache`, `version`. -/
structure HookState where
  data : List Doc
  loading : Bool
  error : Option String
  cache : List (String × CacheItem)
  version : Nat
deriving DecidableEq

/-- A JS exception: either an `Error` instance carrying a message, or any
other thrown value. -/
inductive JsErr : Type
  | error (msg : String)
  | other
deriving DecidableEq

/-- `err instanceof Error ? err.message : 'Unknown error'`. -/
def errMsg : JsErr → String
  | .error m => m
  | .other => "Unknown error"

/-- The outcome of one `fetchData` call: the state after the call settles
and how many remote reads (`getDocs` calls) it performed. -/
structure FetchOutcome where
  state : HookState
  remoteReads : Nat
deriving DecidableEq

/-- The fall-through remote path of `fetchData` (source lines 70–105): one
`getDocs` read; on success the result is stored in the cache under `key`
with the current timestamp and an incremented version and becomes the new
`data`; on failure `error` is set to the message and nothing else changes.
`loading` is cleared either way (the `finally` block). -/
def fetchRemote (s1 : HookState) (key : String) (now : Int)
    (remote : Except JsErr (List Doc)) : FetchOutcome :=
  match remote with
  | .ok result =>
    { state :=
        { s1 with
          data := result
          loading := false
          cache := mapSet s1.cache key ⟨result, now, s1.version + 1⟩
          version := s1.version + 1 }
      remoteReads := 1 }
  | .error e =>
    { state := { s1 with error := some (errMsg e), loading := false }
      remoteReads := 1 }

/-- `fetchData(forceRefresh)` (source lines 56–106).  The remote store is an
oracle `remote`: what the awaited `getDocs` would deliver — a document list
on success or a thrown value on failure.  `now` models `Date.now()`.
The call sets `loading`/`error`, serves a fresh cache hit without any remote
read, and otherwise performs one remote read, on success writing the result
to the cache with the current timestamp and incremented version. -/
def fetchData (s : HookState) (key : String) (staleTime : Int)
    (forceRefresh : Bool) (now : Int)
    (remote : Except JsErr (List Doc)) : FetchOutcome :=
  let s1 : HookState := { s with loading := true, error := none }
  match mapGet s1.cache key with
  | some cached =>
    if ¬forceRefresh ∧ now - cached.timestamp < staleTime then
      { state := { s1 with data := cached.data, loading := false }
        remoteReads := 0 }
    else
      fetchRemote s1 key now remote
  | none => fetchRemote s1 key now remote

/-! ## Query construction (lines 74–81 and 120–125) -/

/-- The equality predicates attached to the remote query:
`Object.entries(filters).forEach(([key, value]) => { if (value !== undefined
&& value !== null) q = query(q, where(key, '==', value)); })`.  Entries whose
value is `undefined` (`Option.none`) or `null` contribute nothing. -/
def buildPredicates (filters : Filters) : List (String × JsonVal) :=
  filters.filterMap (fun e =>
    match e.2 with
    | none => none
    | some .null => none
    | some v => some (e.1, v))

/-- Remote-store semantics of a conjunction of `where(key, '==', value)`
predicates: a document matches iff every predicate's field equals its value. -/
def matchesQuery (preds : List (String × JsonVal)) (d : Doc) : Bool :=
  preds.all (fun p => lookupField d p.1 == some p.2)

/-! ## Live-listener registry (lines 6, 109–146) -/

/-- The registry after the real-time effect runs, together with how many
underlying remote subscriptions (`onSnapshot` calls) the run created.
The registry `activeListeners` is modelled by its key list (the stored
unsubscribe closures carry no data the claims need). -/
structure SetupResult where
  registry : List String
  created : Nat
deriving DecidableEq, Repr

/-- The real-time listener effect (source lines 109–137): do nothing when
`backgroundUpdate` is off; do nothing when the key is already registered;
otherwise create one remote subscription and register it. -/
def setupListener (reg : List String) (backgroundUpdate : Bool)
    (key : String) : SetupResult :=
  if ¬backgroundUpdate then ⟨reg, 0⟩
  else if key ∈ reg then ⟨reg, 0⟩
  else ⟨reg ++ [key], 1⟩

/-- JS `String.prototype.startsWith` on character lists. -/
def listStarts : List Char → List Char → Bool
  | _, [] => true
  | [], _ :: _ => false
  | c :: cs, d :: ds => c == d && listStarts cs ds

/-- `s.startsWith(p)`. -/
def strStarts (s p : String) : Bool := listStarts s.data p.data

/-- The unmount cleanup (source lines 204–222): cancel and deregister every
listener whose key starts with `` `${collectionName}:` ``. -/
def unmountCleanup (reg : List String) (collectionName : String) :
    List String :=
  reg.filter (fun k => !strStarts k (collectionName ++ ":"))

/-! ## Expiry sweeper (lines 181–201) -/

/-- The sweeper's `setInterval` period in milliseconds (source line 198). -/
def sweeperIntervalMs : Nat := 60000

/-- One pass of the expiry sweeper: delete every cache entry with
`now - item.timestamp > cacheTime`, keep the rest. -/
def sweepCache (cache : List (String × CacheItem)) (now cacheTime : Int) :
    List (String × CacheItem) :=
  cache.filter (fun e => !(now - e.2.timestamp > cacheTime : Bool))

/-! ## Optimistic updates (lines 149–173) -/

/-- The externally observable effects of one `optimisticUpdate` call, in
program order. -/
inductive OUEvent : Type
  | remoteWrite (itemId : String) (updates : List (String × JsonVal))
  | rollbackInvoked
  | refetch (forceRefresh : Bool)
deriving DecidableEq, Repr

/-- `optimisticUpdate(itemId, updates, rollback?)` (source lines 149–173).
Returns the `data` array as patched by the synchronous `setData` (before the
awaited write settles — by construction it does not depend on `writeOk`) and
the ordered effect trace.  `rollbackSupplied` models whether a `rollback`
closure was passed; `writeOk` is the oracle for the awaited `updateDoc`. -/
def optimisticUpdate (optimisticUpdates : Bool) (dat : List Doc)
    (itemId : String) (updates : List (String × JsonVal))
    (rollbackSupplied : Bool) (writeOk : Bool) :
    List Doc × List OUEvent :=
  if ¬optimisticUpdates then (dat, [])
  else
    let newData := dat.map (fun item =>
      if lookupField item "id" == some (.str itemId) then
        spreadMerge item updates
      else item)
    if writeOk then
      (newData, [.remoteWrite itemId updates])
    else
      (newData,
        [.remoteWrite itemId updates] ++
          (if rollbackSupplied then [.rollbackInvoked] else []) ++
          [.refetch true])

/-- Example documents and state used by the witnesses below. -/
def exDoc : Doc := [("id", .str "e1"), ("name", .str "Al")]

/-- Example filter mapping. -/
def exFilters : Filters := [("companyId", some (.str "A"))]

/-- Example hook state whose cache holds a fresh entry for `exFilters`. -/
def exState : HookState :=
  { data := []
    loading := false
    error := none
    cache := [(cacheKey "employees" exFilters, ⟨[exDoc], 0, 1⟩)]
    version := 1 }

/-! ## Helper lemmas -/

/-- Sanity evaluation: the fingerprint of a one-filter query, character by
character. -/
theorem cacheKey_eval_companyId :
    (cacheKey "employees" [("companyId", some (.str "A"))]).data
      = ['e', 'm', 'p', 'l', 'o', 'y', 'e', 'e', 's', ':', '{', '"', 'c', 'o',
         'm', 'p', 'a', 'n', 'y', 'I', 'd', '"', ':', '"', 'A', '"', '}'] := by
  decide

/-- Sanity evaluation: `undefined` filter values are dropped, `null` and
negative numbers are rendered. -/
theorem cacheKey_eval_null_num :
    (cacheKey "c" [("a", none), ("b", some .null), ("n", some (.num (-7)))]).data
      = ['c', ':', '{', '"', 'b', '"', ':', 'n', 'u', 'l', 'l', ',', '"', 'n',
         '"', ':', '-', '7', '}'] := by decide

/-- Sanity evaluation: the listener key appends the background flag. -/
theorem listenerKey_eval :
    listenerKey "employees" [] true = "employees:{}:true" := by decide

/-- Setting a key makes it present with the given value. -/
theorem mapGet_mapSet_self {α : Type} (m : List (String × α)) (k : String)
    (v : α) : mapGet (mapSet m k v) k = some v := by
  have hpf : ((fun (e : String × α) => e.1 == k) ∘
      (fun e => if e.1 == k then (k, v) else e)) = fun e => e.1 == k := by
    funext e
    by_cases he : e.1 = k <;> simp [he]
  unfold mapSet mapGet
  cases h : m.find? (fun e => e.1 == k) with
  | some e =>
    have hpe := List.find?_some h
    have he : e.1 = k := by simpa using hpe
    simp only [Option.isSome_some, if_true, List.find?_map, hpf, h,
      Option.map_map, Option.map_some']
    simp [he]
  | none =>
    simp only [Option.isSome_none, Bool.false_eq_true, if_false]
    rw [List.find?_append, h]
    simp [List.find?_cons]

/-! ## Claim theorems -/

/-- C2: for every cache state containing an entry for the requested key whose
age satisfies `now - fetchedAt < staleTime`, a `fetchData` call with
`forceRefresh = false` performs zero remote reads, returns exactly the cached
payload, and leaves the cache and the version counter unchanged. -/
theorem fresh_hit_serves_cache (s : HookState) (key : String)
    (staleTime now : Int) (remote : Except JsErr (List Doc))
    (cached : CacheItem)
    (hc : mapGet s.cache key = some cached)
    (hf : now - cached.timestamp < staleTime) :
    (fetchData s key staleTime false now remote).remoteReads = 0 ∧
    (fetchData s key staleTime false now remote).state.data = cached.data ∧
    (fetchData s key staleTime false now remote).state.cache = s.cache ∧
    (fetchData s key staleTime false now remote).state.version = s.version ∧
    (fetchData s key staleTime false now remote).state.loading = false := by
  unfold fetchData
  have hc' : mapGet ({ s with loading := true, error := none} : HookState).cache
      key = some cached := hc
  simp [hc', hf]

/-- C2 witness: a concrete fresh cache hit at `now = 10000`,
`staleTime = 30000`, entry fetched at `0`. -/
theorem fresh_hit_serves_cache_witness :
    (fetchData exState (cacheKey "employees" exFilters) 30000 false 10000
        (.ok [])).remoteReads = 0 ∧
    (fetchData exState (cacheKey "employees" exFilters) 30000 false 10000
        (.ok [])).state.data = [exDoc] ∧
    (fetchData exState (cacheKey "employees" exFilters) 30000 false 10000
        (.ok [])).state.cache = exState.cache ∧
    (fetchData exState (cacheKey "employees" exFilters) 30000 false 10000
        (.ok [])).state.version = exState.version ∧
    (fetchData exState (cacheKey "employees" exFilters) 30000 false 10000
        (.ok [])).state.loading = false :=
  fresh_hit_serves_cache exState (cacheKey "employees" exFilters) 30000 10000
    (.ok []) ⟨[exDoc], 0, 1⟩ (by decide) (by decide)

/-- C3: whenever `fetchData` reaches the remote read and that read fails, the
error is surfaced as an error string, `loading` is cleared, and the cache and
version counter (hence any previous entry for the key) are untouched, as is
the currently displayed data. -/
theorem remote_failure_preserves_cache (s : HookState) (key : String)
    (staleTime : Int) (force : Bool) (now : Int) (e : JsErr)
    (hmiss : ∀ cached, mapGet s.cache key = some cached →
      force = true ∨ ¬(now - cached.timestamp < staleTime)) :
    (fetchData s key staleTime force now (.error e)).state.error
      = some (errMsg e) ∧
    (fetchData s key staleTime force now (.error e)).state.loading = false ∧
    (fetchData s key staleTime force now (.error e)).state.cache = s.cache ∧
    (fetchData s key staleTime force now (.error e)).state.version
      = s.version ∧
    (fetchData s key staleTime force now (.error e)).state.data = s.data ∧
    (fetchData s key staleTime force now (.error e)).remoteReads = 1 := by
  unfold fetchData
  cases hc : mapGet ({ s with loading := true, error := none} : HookState).cache
      key with
  | none => simp [hc, fetchRemote]
  | some cached =>
    have := hmiss cached hc
    rcases this with hforce | hstale
    · subst hforce
      simp [hc, fetchRemote]
    · simp [hc, hstale, fetchRemote]

/-- C3 witness: a failed remote read over an empty cache surfaces the thrown
message and changes nothing else. -/
theorem remote_failure_preserves_cache_witness :
    (fetchData ⟨[exDoc], false, none, [], 3⟩ "employees:{}" 30000 false 0
        (.error (.error "boom"))).state.error = some "boom" ∧
    (fetchData ⟨[exDoc], false, none, [], 3⟩ "employees:{}" 30000 false 0
        (.error (.error "boom"))).state.loading = false ∧
    (fetchData ⟨[exDoc], false, none, [], 3⟩ "employees:{}" 30000 false 0
        (.error (.error "boom"))).state.cache = [] ∧
    (fetchData ⟨[exDoc], false, none, [], 3⟩ "employees:{}" 30000 false 0
        (.error (.error "boom"))).state.version = 3 ∧
    (fetchData ⟨[exDoc], false, none, [], 3⟩ "employees:{}" 30000 false 0
        (.error (.error "boom"))).state.data = [exDoc] ∧
    (fetchData ⟨[exDoc], false, none, [], 3⟩ "employees:{}" 30000 false 0
        (.error (.error "boom"))).remoteReads = 1 :=
  remote_failure_preserves_cache ⟨[exDoc], false, none, [], 3⟩ "employees:{}"
    30000 false 0 (.error "boom") (by intro cached h; simp [mapGet] at h)

/-- C6: with `forceRefresh = true`, `fetchData` performs exactly one remote
read for every cache state; on success it stores the result as a cache entry
carrying the current timestamp and an incremented version, and returns the
result as the new data. -/
theorem force_refresh_always_fetches (s : HookState) (key : String)
    (staleTime now : Int) (result : List Doc) :
    (fetchData s key staleTime true now (.ok result)).remoteReads = 1 ∧
    (fetchData s key staleTime true now (.ok result)).state.data = result ∧
    (fetchData s key staleTime true now (.ok result)).state.version
      = s.version + 1 ∧
    mapGet (fetchData s key staleTime true now (.ok result)).state.cache key
      = some ⟨result, now, s.version + 1⟩ ∧
    (fetchData s key staleTime true now (.ok result)).state.loading = false ∧
    (fetchData s key staleTime true now (.ok result)).state.error = none := by
  unfold fetchData
  cases hc : mapGet ({ s with loading := true, error := none} : HookState).cache
      key with
  | none => simp [hc, fetchRemote, mapGet_mapSet_self]
  | some cached => simp [hc, fetchRemote, mapGet_mapSet_self]

/-- C10: with the `optimisticUpdates` option off, `optimisticUpdate` is a
complete no-op: the data array is returned unchanged and no remote write,
rollback invocation or refetch occurs. -/
theorem optimistic_disabled_noop (dat : List Doc) (itemId : String)
    (updates : List (String × JsonVal)) (rb writeOk : Bool) :
    optimisticUpdate false dat itemId updates rb writeOk = (dat, []) ∧
    (∀ i u, OUEvent.remoteWrite i u ∉
      (optimisticUpdate false dat itemId updates rb writeOk).2) ∧
    OUEvent.rollbackInvoked ∉
      (optimisticUpdate false dat itemId updates rb writeOk).2 ∧
    (∀ f, OUEvent.refetch f ∉
      (optimisticUpdate false dat itemId updates rb writeOk).2) := by
  simp [optimisticUpdate]

/-- With duplicate-free keys, any member of the map whose key is the looked-up
key carries the value `mapGet` returns. -/
theorem mem_eq_of_mapGet (m : List (String × CacheItem)) (key : String)
    (it : CacheItem) (x : String × CacheItem)
    (hnd : (m.map Prod.fst).Nodup)
    (hit : mapGet m key = some it) (hx : x ∈ m) (hk : x.1 = key) :
    x.2 = it := by
  induction m with
  | nil => simp at hx
  | cons e t ih =>
    rw [List.map_cons, List.nodup_cons] at hnd
    obtain ⟨he1, hnd'⟩ := hnd
    rcases List.mem_cons.mp hx with rfl | hxt
    · unfold mapGet at hit
      rw [List.find?_cons] at hit
      have : (x.1 == key) = true := by simpa using hk
      rw [this] at hit
      simpa using hit
    · have hxk : key ∈ t.map Prod.fst := by
        rw [← hk]
        exact List.mem_map_of_mem Prod.fst hxt
      by_cases he : e.1 = key
      · exact absurd (he ▸ hxk) he1
      · have hbe : (e.1 == key) = false := by simpa using he
        unfold mapGet at hit
        rw [List.find?_cons, hbe] at hit
        exact ih hnd' hit hxt

/-- After sweeping, a key whose (unique) entry was expired is gone. -/
theorem mapGet_sweep_none (cache : List (String × CacheItem))
    (now ct : Int) (key : String) (it : CacheItem)
    (hnd : (cache.map Prod.fst).Nodup)
    (hit : mapGet cache key = some it) (hexp : now - it.timestamp > ct) :
    mapGet (sweepCache cache now ct) key = none := by
  unfold mapGet
  rw [Option.map_eq_none', List.find?_eq_none]
  intro x hx hbeq
  obtain ⟨hxc, hkeep⟩ := List.mem_filter.mp hx
  have hk : x.1 = key := by simpa using hbeq
  have hxit : x.2 = it := mem_eq_of_mapGet cache key it x hnd hit hxc hk
  rw [hxit] at hkeep
  simp [hexp] at hkeep

/-- C4: the live-listener registry keeps at most one subscription per
key (collection name + `JSON.stringify(filters)` + background flag): a second
`setupListener` for an identical key before any teardown creates no new
remote subscription and leaves the registry unchanged, so the two calls
together create exactly one subscription, and the registry stays
duplicate-free. -/
theorem listener_registry_dedup (reg : List String) (c : String)
    (fs : Filters)
    (hnew : listenerKey c fs true ∉ reg) (hnd : reg.Nodup) :
    (setupListener reg true (listenerKey c fs true)).created = 1 ∧
    (setupListener (setupListener reg true (listenerKey c fs true)).registry
        true (listenerKey c fs true)).created = 0 ∧
    (setupListener (setupListener reg true (listenerKey c fs true)).registry
        true (listenerKey c fs true)).registry
      = (setupListener reg true (listenerKey c fs true)).registry ∧
    (setupListener reg true (listenerKey c fs true)).registry.Nodup := by
  have h1 : setupListener reg true (listenerKey c fs true)
      = ⟨reg ++ [listenerKey c fs true], 1⟩ := by
    unfold setupListener
    rw [if_neg (by simp), if_neg hnew]
  have hmem : listenerKey c fs true ∈ reg ++ [listenerKey c fs true] := by
    simp
  have h2 : setupListener (reg ++ [listenerKey c fs true]) true
      (listenerKey c fs true) = ⟨reg ++ [listenerKey c fs true], 0⟩ := by
    unfold setupListener
    rw [if_neg (by simp), if_pos hmem]
  rw [h1, h2]
  refine ⟨rfl, rfl, rfl, ?_⟩
  rw [List.nodup_append]
  exact ⟨hnd, List.nodup_singleton _, by simpa using hnew⟩

/-- C4 witness: an empty registry, collection `employees`, empty filters. -/
theorem listener_registry_dedup_witness :
    (setupListener [] true (listenerKey "employees" [] true)).created = 1 ∧
    (setupListener (setupListener [] true (listenerKey "employees" [] true)).registry
        true (listenerKey "employees" [] true)).created = 0 ∧
    (setupListener (setupListener [] true (listenerKey "employees" [] true)).registry
        true (listenerKey "employees" [] true)).registry
      = (setupListener [] true (listenerKey "employees" [] true)).registry ∧
    (setupListener [] true (listenerKey "employees" [] true)).registry.Nodup :=
  listener_registry_dedup [] "employees" [] (by decide) (by decide)

/-- C7: the remote query applies exactly the filters whose value is neither
`undefined` nor `null`, each as an equality predicate, and a document matches
the query iff every such predicate holds (conjunction). -/
theorem query_applies_nonnull_filters (filters : Filters) (d : Doc) :
    (∀ k v, (k, v) ∈ buildPredicates filters ↔
      ((k, some v) ∈ filters ∧ v ≠ JsonVal.null)) ∧
    (matchesQuery (buildPredicates filters) d = true ↔
      ∀ k v, (k, v) ∈ buildPredicates filters → lookupField d k = some v) := by
  constructor
  · intro k v
    unfold buildPredicates
    rw [List.mem_filterMap]
    constructor
    · rintro ⟨⟨k', ov⟩, hmem, hf⟩
      cases ov with
      | none => simp at hf
      | some v' =>
        by_cases hv : v' = JsonVal.null
        · subst hv
          simp at hf
        · simp only [if_neg hv, Option.some_inj] at hf
          obtain ⟨rfl, rfl⟩ := Prod.mk.injEq .. ▸ hf
          exact ⟨hmem, hv⟩
    · rintro ⟨hmem, hnull⟩
      exact ⟨(k, some v), hmem, by simp [if_neg hnull]⟩
  · unfold matchesQuery
    rw [List.all_eq_true]
    constructor
    · intro h k v hmem
      have := h (k, v) hmem
      simpa using this
    · intro h p hmem
      have := h p.1 p.2 hmem
      simpa using this

/-- C8: the expiry sweeper runs on a fixed 60-second interval; one pass
keeps exactly the entries with `now - fetchedAt ≤ cacheTime` (evicting
exactly those with `now - fetchedAt > cacheTime`); once the entry for a key
is evicted, the next `fetchData` for that key performs a remote read. -/
theorem sweeper_evicts_expired (cache : List (String × CacheItem))
    (now cacheTime : Int) (key : String) (it : CacheItem)
    (staleTime : Int) (force : Bool)
    (now2 : Int) (remote : Except JsErr (List Doc))
    (hnd : (cache.map Prod.fst).Nodup)
    (hit : mapGet cache key = some it)
    (hexp : now - it.timestamp > cacheTime) :
    sweeperIntervalMs = 60000 ∧
    (∀ e, e ∈ sweepCache cache now cacheTime ↔
      (e ∈ cache ∧ ¬(now - e.2.timestamp > cacheTime))) ∧
    mapGet (sweepCache cache now cacheTime) key = none ∧
    (∀ s : HookState, s.cache = sweepCache cache now cacheTime →
      (fetchData s key staleTime force now2 remote).remoteReads = 1) := by
  have hgone := mapGet_sweep_none cache now cacheTime key it hnd hit hexp
  refine ⟨rfl, ?_, hgone, ?_⟩
  · intro e
    unfold sweepCache
    rw [List.mem_filter]
    simp
  · intro s hs
    unfold fetchData
    cases hc : mapGet ({ s with loading := true, error := none} : HookState).cache
        key with
    | none => cases remote <;> simp [hc, fetchRemote]
    | some cached =>
      have hc2 : mapGet s.cache key = some cached := hc
      rw [hs, hgone] at hc2
      exact Option.noConfusion hc2

/-- C8 witness: a one-entry cache fetched at time `0`, swept at
`now = 400000` with `cacheTime = 300000`. -/
theorem sweeper_evicts_expired_witness :
    sweeperIntervalMs = 60000 ∧
    (("employees:{}", (⟨[exDoc], 0, 1⟩ : CacheItem)) ∈
        sweepCache [("employees:{}", ⟨[exDoc], 0, 1⟩)] 400000 300000 ↔
      (("employees:{}", (⟨[exDoc], 0, 1⟩ : CacheItem)) ∈
          [("employees:{}", (⟨[exDoc], 0, 1⟩ : CacheItem))] ∧
        ¬((400000 : Int) -
            ((⟨[exDoc], 0, 1⟩ : CacheItem)).timestamp > 300000))) ∧
    mapGet (sweepCache [("employees:{}", ⟨[exDoc], 0, 1⟩)] 400000 300000)
      "employees:{}" = none ∧
    (fetchData ⟨[], false, none,
        sweepCache [("employees:{}", ⟨[exDoc], 0, 1⟩)] 400000 300000, 1⟩
        "employees:{}" 30000 false 400001 (.ok [])).remoteReads = 1 := by
  obtain ⟨h1, h2, h3, h4⟩ :=
    sweeper_evicts_expired [("employees:{}", ⟨[exDoc], 0, 1⟩)] 400000 300000
      "employees:{}" ⟨[exDoc], 0, 1⟩ 30000 false 400001 (.ok [])
      (by decide) (by decide) (by decide)
  exact ⟨h1, h2 ("employees:{}", ⟨[exDoc], 0, 1⟩), h3,
    h4 ⟨[], false, none,
      sweepCache [("employees:{}", ⟨[exDoc], 0, 1⟩)] 400000 300000, 1⟩ rfl⟩

/-- C9 counterexample: components X and Y both request the live subscription
for collection `employees` with empty filters; de-duplication leaves one
registry entry shared by both.  When X unmounts, its cleanup removes that
entry, so Y's data stream no longer receives pushes — refuting the clause
that Y's stream must continue. -/
theorem premature_teardown_counterexample :
    listenerKey "employees" [] true ∈
      (setupListener [] true (listenerKey "employees" [] true)).registry ∧
    listenerKey "employees" [] true ∉
      unmountCleanup
        (setupListener [] true (listenerKey "employees" [] true)).registry
        "employees" := by decide

/-- C9 (amended): the unmount teardown of a consumer removes exactly the
registry entries whose key starts with `collectionName ++ ":"` — with no
reference counting, so the first unmounting consumer tears down a
subscription other consumers still depend on. -/
theorem unmount_removes_collection_listeners (reg : List String)
    (c k : String) :
    k ∈ unmountCleanup reg c ↔
      (k ∈ reg ∧ strStarts k (c ++ ":") = false) := by
  unfold unmountCleanup
  rw [List.mem_filter]
  simp

theorem digitChar_toNat (d : Nat) (hd : d < 10) :
    (digitChar d).toNat = 48 + d := by
  have : ∀ e, e < 10 → (digitChar e).toNat = 48 + e := by decide
  exact this d hd

theorem natDecimalAux_foldl (fuel : Nat) :
    ∀ n a, n ≤ fuel →
      List.foldl (fun a c => 10 * a + (c.toNat - 48)) a (natDecimalAux fuel n)
        = a * 10 ^ (natDecimalAux fuel n).length + n := by
  induction fuel with
  | zero =>
    intro n a hn
    interval_cases n
    simp [natDecimalAux]
  | succ fuel ih =>
    intro n a hn
    cases n with
    | zero => simp [natDecimalAux]
    | succ m =>
      have hq : (m + 1) / 10 ≤ fuel := by
        have h1 : (m + 1) / 10 < m + 1 := Nat.div_lt_self (Nat.succ_pos m) (by norm_num)
        omega
      have hr : (m + 1) % 10 < 10 := Nat.mod_lt _ (by norm_num)
      have hunf : natDecimalAux (fuel + 1) (m + 1)
          = natDecimalAux fuel ((m + 1) / 10) ++ [digitChar ((m + 1) % 10)] := rfl
      rw [hunf, List.foldl_append, ih ((m + 1) / 10) a hq]
      simp only [List.foldl_cons, List.foldl_nil, List.length_append,
        List.length_singleton]
      rw [digitChar_toNat _ hr]
      have hsub : 48 + (m + 1) % 10 - 48 = (m + 1) % 10 := by omega
      rw [hsub]
      have hmod := Nat.div_add_mod (m + 1) 10
      calc 10 * (a * 10 ^ (natDecimalAux fuel ((m + 1) / 10)).length + (m + 1) / 10)
            + (m + 1) % 10
          = a * (10 ^ (natDecimalAux fuel ((m + 1) / 10)).length * 10)
            + (10 * ((m + 1) / 10) + (m + 1) % 10) := by ring
        _ = a * 10 ^ ((natDecimalAux fuel ((m + 1) / 10)).length + 1) + (m + 1) := by
            rw [hmod, pow_succ]

theorem decodeNat_natDecimal (n : Nat) : decodeNat (natDecimal n) = n := by
  unfold natDecimal decodeNat
  by_cases hn : n = 0
  · subst hn; decide
  · rw [if_neg hn]
    rw [natDecimalAux_foldl n n 0 (Nat.le_refl n)]
    simp

theorem natDecimal_injective (n1 n2 : Nat) (h : natDecimal n1 = natDecimal n2) :
    n1 = n2 := by
  have := decodeNat_natDecimal n1
  rw [h, decodeNat_natDecimal n2] at this
  exact this.symm

theorem digitChar_isDigit (d : Nat) (hd : d < 10) : isDigitCh (digitChar d) := by
  have : ∀ e, e < 10 → isDigitCh (digitChar e) := by decide
  exact this d hd

theorem natDecimalAux_digits (fuel : Nat) :
    ∀ n c, c ∈ natDecimalAux fuel n → isDigitCh c := by
  induction fuel with
  | zero =>
    intro n c hc
    cases n <;> simp [natDecimalAux] at hc
  | succ fuel ih =>
    intro n c hc
    cases n with
    | zero => simp [natDecimalAux] at hc
    | succ m =>
      have hunf : natDecimalAux (fuel + 1) (m + 1)
          = natDecimalAux fuel ((m + 1) / 10) ++ [digitChar ((m + 1) % 10)] := rfl
      rw [hunf, List.mem_append] at hc
      rcases hc with hc | hc
      · exact ih _ c hc
      · rw [List.mem_singleton] at hc
        subst hc
        exact digitChar_isDigit _ (Nat.mod_lt _ (by norm_num))

theorem natDecimal_digits (n : Nat) (c : Char) (hc : c ∈ natDecimal n) :
    isDigitCh c := by
  unfold natDecimal at hc
  by_cases hn : n = 0
  · rw [if_pos hn, List.mem_singleton] at hc
    subst hc
    exact ⟨by decide, by decide⟩
  · rw [if_neg hn] at hc
    exact natDecimalAux_digits n n c hc

theorem natDecimal_ne_nil (n : Nat) : natDecimal n ≠ [] := by
  unfold natDecimal
  by_cases hn : n = 0
  · simp [hn]
  · rw [if_neg hn]
    obtain ⟨m, rfl⟩ := Nat.exists_eq_succ_of_ne_zero hn
    have hunf : natDecimalAux (m + 1) (m + 1)
        = natDecimalAux m ((m + 1) / 10) ++ [digitChar ((m + 1) % 10)] := rfl
    rw [hunf]
    simp

theorem natDecimal_head (n : Nat) :
    ∃ c cs, natDecimal n = c :: cs ∧ isDigitCh c := by
  cases hd : natDecimal n with
  | nil => exact absurd hd (natDecimal_ne_nil n)
  | cons c cs =>
    refine ⟨c, cs, rfl, ?_⟩
    exact natDecimal_digits n c (hd ▸ List.mem_cons_self c cs)

theorem sepStart_head_not_digit (r : List Char) (hr : sepStart r)
    (c : Char) (t : List Char) (he : r = c :: t) : ¬isDigitCh c := by
  rcases hr with rfl | ⟨t', rfl⟩
  · exact absurd he (by simp)
  · rw [List.cons.injEq] at he
    rw [← he.1]
    decide

theorem digit_run_extract (d1 : List Char) :
    ∀ d2 r1 r2 : List Char, (∀ c ∈ d1, isDigitCh c) → (∀ c ∈ d2, isDigitCh c) →
      sepStart r1 → sepStart r2 → d1 ++ r1 = d2 ++ r2 →
      d1 = d2 ∧ r1 = r2 := by
  induction d1 with
  | nil =>
    intro d2 r1 r2 _ h2 s1 _ h
    cases d2 with
    | nil => exact ⟨rfl, h⟩
    | cons c t =>
      exfalso
      simp only [List.nil_append, List.cons_append] at h
      exact sepStart_head_not_digit r1 s1 c (t ++ r2) h
        (h2 c (List.mem_cons_self c t))
  | cons c1 t1 ih =>
    intro d2 r1 r2 h1 h2 s1 s2 h
    cases d2 with
    | nil =>
      exfalso
      simp only [List.cons_append, List.nil_append] at h
      exact sepStart_head_not_digit r2 s2 c1 (t1 ++ r1) h.symm
        (h1 c1 (List.mem_cons_self c1 t1))
    | cons c2 t2 =>
      simp only [List.cons_append, List.cons.injEq] at h
      obtain ⟨rfl, h'⟩ := h
      obtain ⟨ht, hr⟩ := ih t2 r1 r2 (fun c hc => h1 c (List.mem_cons_of_mem _ hc))
        (fun c hc => h2 c (List.mem_cons_of_mem _ hc)) s1 s2 h'
      exact ⟨by rw [ht], hr⟩

theorem quote_run_extract (k1 : List Char) :
    ∀ k2 r1 r2 : List Char, '"' ∉ k1 → '"' ∉ k2 →
      k1 ++ '"' :: r1 = k2 ++ '"' :: r2 →
      k1 = k2 ∧ r1 = r2 := by
  induction k1 with
  | nil =>
    intro k2 r1 r2 _ h2 h
    cases k2 with
    | nil => simpa using h
    | cons c t =>
      exfalso
      simp only [List.nil_append, List.cons_append, List.cons.injEq] at h
      exact h2 (h.1 ▸ List.mem_cons_self c t)
  | cons c1 t1 ih =>
    intro k2 r1 r2 h1 h2 h
    cases k2 with
    | nil =>
      exfalso
      simp only [List.cons_append, List.nil_append, List.cons.injEq] at h
      exact h1 (h.1.symm ▸ List.mem_cons_self c1 t1)
    | cons c2 t2 =>
      simp only [List.cons_append, List.cons.injEq] at h
      obtain ⟨rfl, h'⟩ := h
      obtain ⟨ht, hr⟩ := ih t2 r1 r2 (fun hc => h1 (List.mem_cons_of_mem _ hc))
        (fun hc => h2 (List.mem_cons_of_mem _ hc)) h'
      exact ⟨by rw [ht], hr⟩

theorem jsonEscape_plain_list (l : List Char) (h : l.all plainChar = true) :
    (l.map jsonEscapeChar).flatten = l := by
  induction l with
  | nil => rfl
  | cons c t ih =>
    rw [List.all_cons, Bool.and_eq_true] at h
    have hc : c ≠ '"' ∧ c ≠ '\\' := by
      have := h.1
      unfold plainChar at this
      simp at this
      exact this
    simp only [List.map_cons, List.flatten_cons, ih h.2]
    unfold jsonEscapeChar
    rw [if_neg hc.1, if_neg hc.2]
    rfl

theorem jsonEscape_plain (s : String) (h : plainStr s = true) :
    jsonEscape s = s.data :=
  jsonEscape_plain_list s.data h

theorem plainStr_no_quote (s : String) (h : plainStr s = true) :
    '"' ∉ s.data := by
  intro hmem
  unfold plainStr at h
  rw [List.all_eq_true] at h
  have := h '"' hmem
  simp [plainChar] at this

theorem charClass_digit (c : Char) (h : isDigitCh c) : charClass c = 1 := by
  unfold charClass
  rw [if_neg, if_pos h]
  intro hq
  subst hq
  exact absurd h (by decide)

theorem stringify_head (v : JsonVal) :
    ∃ c cs, stringifyVal v = c :: cs ∧ charClass c = classIdx v := by
  cases v with
  | str s => exact ⟨'"', jsonEscape s ++ ['"'], rfl, rfl⟩
  | num n =>
    cases n with
    | ofNat k =>
      obtain ⟨c, cs, hd, hdig⟩ := natDecimal_head k
      exact ⟨c, cs, by simp [stringifyVal, intDecimal, hd], charClass_digit c hdig⟩
    | negSucc m =>
      exact ⟨'-', natDecimal (m + 1), rfl, rfl⟩
  | bool b => cases b with
    | true => exact ⟨'t', ['r', 'u', 'e'], rfl, rfl⟩
    | false => exact ⟨'f', ['a', 'l', 's', 'e'], rfl, rfl⟩
  | null => exact ⟨'n', ['u', 'l', 'l'], rfl, rfl⟩

theorem string_ext (s t : String) (h : s.data = t.data) : s = t := by
  cases s
  cases t
  cases h
  rfl

theorem val_extract (v1 v2 : JsonVal) (r1 r2 : List Char)
    (p1 : plainValB v1 = true) (p2 : plainValB v2 = true)
    (s1 : sepStart r1) (s2 : sepStart r2)
    (h : stringifyVal v1 ++ r1 = stringifyVal v2 ++ r2) :
    v1 = v2 ∧ r1 = r2 := by
  obtain ⟨c1, cs1, he1, hc1⟩ := stringify_head v1
  obtain ⟨c2, cs2, he2, hc2⟩ := stringify_head v2
  have hcc : c1 = c2 := by
    rw [he1, he2] at h
    simpa [List.cons_append] using congrArg (fun l => l.head?) h
  have hcl : classIdx v1 = classIdx v2 := by
    rw [← hc1, ← hc2, hcc]
  clear hc1 hc2 hcc he1 he2
  cases v1 with
  | str s1' =>
    cases v2 with
    | str s2' =>
      rw [show stringifyVal (.str s1') = '"' :: (s1'.data ++ ['"']) by
        simp [stringifyVal, jsonEscape_plain s1' p1]] at h
      rw [show stringifyVal (.str s2') = '"' :: (s2'.data ++ ['"']) by
        simp [stringifyVal, jsonEscape_plain s2' p2]] at h
      simp only [List.cons_append, List.append_assoc, List.cons.injEq,
        List.singleton_append] at h
      obtain ⟨hk, hr⟩ := quote_run_extract s1'.data s2'.data r1 r2
        (plainStr_no_quote s1' p1) (plainStr_no_quote s2' p2) h.2
      exact ⟨congrArg JsonVal.str (string_ext s1' s2' hk), hr⟩
    | num n2 => exact absurd hcl (by cases n2 <;> simp [classIdx])
    | bool b2 => exact absurd hcl (by cases b2 <;> simp [classIdx])
    | null => exact absurd hcl (by simp [classIdx])
  | num n1 =>
    cases v2 with
    | str s2' => exact absurd hcl (by cases n1 <;> simp [classIdx])
    | num n2 =>
      cases n1 with
      | ofNat k1 =>
        cases n2 with
        | ofNat k2 =>
          have h' : natDecimal k1 ++ r1 = natDecimal k2 ++ r2 := h
          obtain ⟨hd, hr⟩ := digit_run_extract (natDecimal k1) (natDecimal k2)
            r1 r2 (fun c hc => natDecimal_digits k1 c hc)
            (fun c hc => natDecimal_digits k2 c hc) s1 s2 h'
          exact ⟨by rw [natDecimal_injective k1 k2 hd], hr⟩
        | negSucc m2 => exact absurd hcl (by simp [classIdx])
      | negSucc m1 =>
        cases n2 with
        | ofNat k2 => exact absurd hcl (by simp [classIdx])
        | negSucc m2 =>
          have h' : '-' :: (natDecimal (m1 + 1) ++ r1)
              = '-' :: (natDecimal (m2 + 1) ++ r2) := by
            simpa [stringifyVal, intDecimal, List.cons_append] using h
          rw [List.cons.injEq] at h'
          obtain ⟨hd, hr⟩ := digit_run_extract (natDecimal (m1 + 1))
            (natDecimal (m2 + 1)) r1 r2
            (fun c hc => natDecimal_digits _ c hc)
            (fun c hc => natDecimal_digits _ c hc) s1 s2 h'.2
          have hm : m1 = m2 := by
            have := natDecimal_injective (m1 + 1) (m2 + 1) hd
            omega
          exact ⟨by rw [hm], hr⟩
    | bool b2 => exact absurd hcl (by cases n1 <;> cases b2 <;> simp [classIdx])
    | null => exact absurd hcl (by cases n1 <;> simp [classIdx])
  | bool b1 =>
    cases v2 with
    | str s2' => exact absurd hcl (by cases b1 <;> simp [classIdx])
    | num n2 => exact absurd hcl (by cases b1 <;> cases n2 <;> simp [classIdx])
    | bool b2 =>
      cases b1 <;> cases b2
      · simpa [stringifyVal, List.cons_append] using h
      · exact absurd hcl (by simp [classIdx])
      · exact absurd hcl (by simp [classIdx])
      · simpa [stringifyVal, List.cons_append] using h
    | null => exact absurd hcl (by cases b1 <;> simp [classIdx])
  | null =>
    cases v2 with
    | str s2' => exact absurd hcl (by simp [classIdx])
    | num n2 => exact absurd hcl (by cases n2 <;> simp [classIdx])
    | bool b2 => exact absurd hcl (by cases b2 <;> simp [classIdx])
    | null => simpa [stringifyVal, List.cons_append] using h

theorem stringifyEntries_cons (e : String × JsonVal)
    (t : List (String × JsonVal)) :
    stringifyEntries (e :: t) = stringifyEntry e ++ entrySep t := by
  cases t with
  | nil => simp [stringifyEntries, entrySep]
  | cons t' ts => rfl

theorem sepStart_entrySep (t : List (String × JsonVal)) :
    sepStart (entrySep t) := by
  cases t with
  | nil => exact Or.inl rfl
  | cons t' ts => exact Or.inr ⟨_, rfl⟩

theorem entry_extract (e1 e2 : String × JsonVal) (r1 r2 : List Char)
    (p1 : (plainStr e1.1 && plainValB e1.2) = true)
    (p2 : (plainStr e2.1 && plainValB e2.2) = true)
    (s1 : sepStart r1) (s2 : sepStart r2)
    (h : stringifyEntry e1 ++ r1 = stringifyEntry e2 ++ r2) :
    e1 = e2 ∧ r1 = r2 := by
  rw [Bool.and_eq_true] at p1 p2
  unfold stringifyEntry at h
  rw [jsonEscape_plain e1.1 p1.1, jsonEscape_plain e2.1 p2.1] at h
  simp only [List.cons_append, List.append_assoc, List.cons.injEq] at h
  have h' : e1.1.data ++ '"' :: (':' :: (stringifyVal e1.2 ++ r1))
      = e2.1.data ++ '"' :: (':' :: (stringifyVal e2.2 ++ r2)) := by
    simpa [List.cons_append] using h.2
  obtain ⟨hk, hrest⟩ := quote_run_extract e1.1.data e2.1.data _ _
    (plainStr_no_quote e1.1 p1.1) (plainStr_no_quote e2.1 p2.1) h'
  rw [List.cons.injEq] at hrest
  obtain ⟨hv, hr⟩ := val_extract e1.2 e2.2 r1 r2 p1.2 p2.2 s1 s2 hrest.2
  refine ⟨?_, hr⟩
  obtain ⟨k1, v1⟩ := e1
  obtain ⟨k2, v2⟩ := e2
  simp only [Prod.mk.injEq]
  exact ⟨string_ext k1 k2 hk, hv⟩

theorem entries_injective (l1 : List (String × JsonVal)) :
    ∀ l2, plainEntriesB l1 = true → plainEntriesB l2 = true →
      stringifyEntries l1 = stringifyEntries l2 → l1 = l2 := by
  induction l1 with
  | nil =>
    intro l2 _ _ h
    cases l2 with
    | nil => rfl
    | cons e t =>
      exfalso
      rw [stringifyEntries_cons] at h
      unfold stringifyEntry at h
      simp [stringifyEntries] at h
  | cons e1 t1 ih =>
    intro l2 p1 p2 h
    cases l2 with
    | nil =>
      exfalso
      rw [stringifyEntries_cons] at h
      unfold stringifyEntry at h
      simp [stringifyEntries] at h
    | cons e2 t2 =>
      rw [stringifyEntries_cons, stringifyEntries_cons] at h
      unfold plainEntriesB at p1 p2
      rw [List.all_cons, Bool.and_eq_true] at p1 p2
      obtain ⟨he, hsep⟩ := entry_extract e1 e2 (entrySep t1) (entrySep t2)
        p1.1 p2.1 (sepStart_entrySep t1) (sepStart_entrySep t2) h
      subst he
      cases t1 with
      | nil =>
        cases t2 with
        | nil => rfl
        | cons t2' ts2 => exact absurd hsep (by simp [entrySep])
      | cons t1' ts1 =>
        cases t2 with
        | nil => exact absurd hsep (by simp [entrySep])
        | cons t2' ts2 =>
          unfold entrySep at hsep
          rw [List.cons.injEq] at hsep
          rw [ih (t2' :: ts2) p1.2 p2.2 hsep.2]

/-- C1 counterexample: two filter mappings that are equal as sets of
key/value pairs but enumerate their keys in different insertion orders
produce different cache keys, because `JSON.stringify` serializes entries in
insertion order without sorting. -/
theorem cacheKey_order_counterexample :
    List.Perm
      ([("a", some (JsonVal.str "1")), ("b", some (JsonVal.str "2"))] : Filters)
      [("b", some (JsonVal.str "2")), ("a", some (JsonVal.str "1"))] ∧
    cacheKey "employees"
        [("a", some (JsonVal.str "1")), ("b", some (JsonVal.str "2"))]
      ≠ cacheKey "employees"
        [("b", some (JsonVal.str "2")), ("a", some (JsonVal.str "1"))] := by
  decide

/-- C1 (amended): for a fixed collection name, the cache key is a pure,
deterministic, injective function of the *insertion-ordered sequence* of
defined filter entries: `undefined` values canonicalize to absent keys, and
two filter mappings (over quote-free and backslash-free keys and string
values) produce the same key iff they agree as ordered sequences after
dropping `undefined` values — in particular equal mappings give equal keys
and mappings differing in any key or value give distinct keys, but mere
reorderings also give distinct keys. -/
theorem cacheKey_canonical (c : String) (f1 f2 : Filters)
    (h1 : plainEntriesB (definedEntries f1) = true)
    (h2 : plainEntriesB (definedEntries f2) = true) :
    cacheKey c f1 = cacheKey c f2 ↔ definedEntries f1 = definedEntries f2 := by
  constructor
  · intro h
    have hdata := congrArg String.data h
    simp only [cacheKey, String.data_append] at hdata
    have hd2 := List.append_cancel_left hdata
    have hd3 : '{' :: (stringifyEntries (definedEntries f1) ++ ['}'])
        = '{' :: (stringifyEntries (definedEntries f2) ++ ['}']) := hd2
    rw [List.cons.injEq] at hd3
    have he := List.append_cancel_right hd3.2
    exact entries_injective (definedEntries f1) (definedEntries f2) h1 h2 he
  · intro h
    unfold cacheKey stringifyFilters
    rw [h]

/-- C1 witness: a mapping with an `undefined` value canonicalizes to the
same key as the mapping with that key absent. -/
theorem cacheKey_canonical_witness :
    plainEntriesB
        (definedEntries [("a", some (JsonVal.str "1")), ("u", none)]) = true ∧
    plainEntriesB (definedEntries [("a", some (JsonVal.str "1"))]) = true ∧
    (cacheKey "employees" [("a", some (JsonVal.str "1")), ("u", none)]
        = cacheKey "employees" [("a", some (JsonVal.str "1"))] ↔
      definedEntries [("a", some (JsonVal.str "1")), ("u", none)]
        = definedEntries [("a", some (JsonVal.str "1"))]) :=
  ⟨by decide, by decide,
    cacheKey_canonical "employees" _ _ (by decide) (by decide)⟩


/-- `lookupField` unfolded (used for targeted rewriting). -/
theorem lookupField_def (l : List (String × JsonVal)) (k : String) :
    lookupField l k = (l.find? (fun e => e.1 == k)).map (fun e => e.2) := rfl

theorem find?_filter_of_imp {α : Type} (l : List α) (p q : α → Bool)
    (h : ∀ e ∈ l, p e = true → q e = true) :
    (l.filter q).find? p = l.find? p := by
  induction l with
  | nil => rfl
  | cons e t ih =>
    have ht := fun x hx => h x (List.mem_cons_of_mem e hx)
    rw [List.filter_cons]
    by_cases hp : p e = true
    · simp [h e (List.mem_cons_self e t) hp, List.find?_cons, hp]
    · have hp' : p e = false := by rwa [Bool.not_eq_true] at hp
      by_cases hq : q e = true
      · simp only [hq, if_true, List.find?_cons, hp']
        exact ih ht
      · have hq' : q e = false := by rwa [Bool.not_eq_true] at hq
        simp only [hq', Bool.false_eq_true, if_false, ih ht, List.find?_cons,
          hp']

theorem lookupField_spreadMerge (base upd : List (String × JsonVal))
    (k : String) :
    lookupField (spreadMerge base upd) k
      = (lookupField upd k).or (lookupField base k) := by
  have hpf : ((fun (e : String × JsonVal) => e.1 == k) ∘
      (fun e => match lookupField upd e.1 with
        | some v => (e.1, v)
        | none => e)) = fun e => e.1 == k := by
    funext e
    cases h : lookupField upd e.1 <;> simp [h]
  unfold spreadMerge
  rw [lookupField_def, List.find?_append, List.find?_map, hpf]
  cases hb : base.find? (fun e => e.1 == k) with
  | some be =>
    have hbe : be.1 = k := by simpa using List.find?_some hb
    simp only [Option.map_some']
    rw [show (lookupField base k) = some be.2 by rw [lookupField_def, hb]; rfl]
    cases hu : lookupField upd k with
    | some v =>
      rw [show lookupField upd be.1 = some v from hbe ▸ hu]
      simp
    | none =>
      rw [show lookupField upd be.1 = none from hbe ▸ hu]
      simp
  | none =>
    have hbk : lookupField base k = none := by rw [lookupField_def, hb]; rfl
    have hfilt : (upd.filter
        (fun e => (lookupField base e.1).isNone)).find? (fun e => e.1 == k)
        = upd.find? (fun e => e.1 == k) := by
      apply find?_filter_of_imp
      intro e he hp
      have hek : e.1 = k := by simpa using hp
      rw [hek, hbk]
      rfl
    rw [hfilt, hbk]
    simp [lookupField_def]

/-- C5: with optimistic updates enabled and the target id present in the
current result set, `optimisticUpdate` synchronously patches exactly the
matching record — the patched record answers field lookups from the partial
update first, falling back to its old fields, and all other records are
untouched — the patched array does not depend on the eventual write outcome
(observable before the write settles), and a failed remote write produces
the effect trace: remote write, the supplied rollback, then a forced
refetch (`forceRefresh = true`). -/
theorem optimistic_update_behavior (dat : List Doc) (itemId : String)
    (updates : List (String × JsonVal)) (rb writeOk : Bool)
    (_hpresent : ∃ item ∈ dat, lookupField item "id"
      = some (JsonVal.str itemId)) :
    ((optimisticUpdate true dat itemId updates rb writeOk).1.length
        = dat.length) ∧
    (∀ i, i < dat.length →
      ((lookupField (dat.getD i []) "id" = some (JsonVal.str itemId) →
        ∀ k, lookupField
            ((optimisticUpdate true dat itemId updates rb writeOk).1.getD i [])
            k
          = ((lookupField updates k).or (lookupField (dat.getD i []) k))) ∧
      (lookupField (dat.getD i []) "id" ≠ some (JsonVal.str itemId) →
        (optimisticUpdate true dat itemId updates rb writeOk).1.getD i []
          = dat.getD i []))) ∧
    ((optimisticUpdate true dat itemId updates rb writeOk).1
      = (optimisticUpdate true dat itemId updates rb true).1) ∧
    (writeOk = false →
      (optimisticUpdate true dat itemId updates rb writeOk).2
        = [OUEvent.remoteWrite itemId updates] ++
            (if rb then [OUEvent.rollbackInvoked] else []) ++
            [OUEvent.refetch true]) := by
  have hfst : (optimisticUpdate true dat itemId updates rb writeOk).1
      = dat.map (fun item =>
          if lookupField item "id" == some (.str itemId) then
            spreadMerge item updates
          else item) := by
    unfold optimisticUpdate
    cases writeOk <;> simp
  have hgetD : ∀ i, i < dat.length →
      (optimisticUpdate true dat itemId updates rb writeOk).1.getD i []
        = (fun item =>
            if lookupField item "id" == some (.str itemId) then
              spreadMerge item updates
            else item) (dat.getD i []) := by
    intro i hi
    rw [hfst, List.getD_eq_getElem?_getD, List.getElem?_map,
      List.getElem?_eq_getElem hi]
    simp [List.getD_eq_getElem?_getD, List.getElem?_eq_getElem hi]
  refine ⟨by rw [hfst]; simp, ?_, ?_, ?_⟩
  · intro i hi
    constructor
    · intro hid k
      rw [hgetD i hi]
      simp only [hid, beq_self_eq_true, if_true]
      exact lookupField_spreadMerge (dat.getD i []) updates k
    · intro hid
      rw [hgetD i hi]
      have hbf : (lookupField (dat.getD i []) "id"
          == some (JsonVal.str itemId)) = false := by
        simpa using hid
      simp only [hbf, Bool.false_eq_true, if_false]
  · rw [hfst]
    unfold optimisticUpdate
    simp
  · intro hw
    subst hw
    unfold optimisticUpdate
    simp

/-- C5 witness: patching record `e1` in a one-record set with a failing
write and a supplied rollback. -/
theorem optimistic_update_behavior_witness :
    (0 : Nat) < ([exDoc] : List Doc).length ∧
    lookupField (([exDoc] : List Doc).getD 0 []) "id"
      = some (JsonVal.str "e1") ∧
    lookupField
        ((optimisticUpdate true [exDoc] "e1" [("name", JsonVal.str "Bob")]
            true false).1.getD 0 [])
        "name"
      = ((lookupField [("name", JsonVal.str "Bob")] "name").or
          (lookupField (([exDoc] : List Doc).getD 0 []) "name")) ∧
    (optimisticUpdate true [exDoc] "e1" [("name", JsonVal.str "Bob")]
        true false).2
      = [OUEvent.remoteWrite "e1" [("name", JsonVal.str "Bob")],
         OUEvent.rollbackInvoked, OUEvent.refetch true] := by
  obtain ⟨h1, h2, h3, h4⟩ := optimistic_update_behavior [exDoc] "e1"
    [("name", JsonVal.str "Bob")] true false
    ⟨exDoc, by decide, by decide⟩
  refine ⟨by decide, by decide, (h2 0 (by decide)).1 (by decide) "name", ?_⟩
  simpa using h4 rfl

end CheckMaker
